import Mathlib

/-! Verification of the reconciliation core of `reconcile.py` (dns-mesh).

The program text is embedded shallowly over `List Char`:

* `get_current_remotes_from_config` models the config parser built from
  `re.search(r'remote:(.*?)(\w+:|$)', content, re.DOTALL)` followed by
  `re.findall(r'-    id:  (\S+)', section)`.  The lazy group `(.*?)` stops at
  the first position where `\w+:` matches (or at `$`, which in DOTALL mode
  without MULTILINE matches at the end of the string or just before a final
  newline); this is modelled by `lazyCapture`.
* `generate_new_config` models the config synthesizer: insertion of one
  four-line block per missing remote immediately after the first line
  containing `remote:` (each block is spliced at the same index `i+1`), then
  two global regex substitutions of `(name:\s*\[[^\]]*)` for `name` equal to
  `remote` and `master`.  The replacement template in the source is the
  non-raw f-string `f"\1, {ids}"`; in Python `\1` inside a plain string
  literal is the octal escape for the control character U+0001 (unlike `\s`
  and `\[`, which are invalid escapes and stay literal in the pattern), so
  the template contains no backslash and `re.sub` performs no group
  substitution: each matched span — the directive name, the opening bracket
  and all prior entries — is deleted and replaced by the literal character
  U+0001 followed by a comma, a space and the joined missing ids.
* `runMain` models the convergence driver `main` as a function from the
  outcomes of the external collaborators (cluster client construction, zone
  transfer, config file, ConfigMap write, restart patch) to the externally
  visible effects (content written to the ConfigMap, restart signal) plus a
  flag recording that the process terminated normally; every failure path in
  `main` is a caught exception followed by `return` (or `exit(0)` for the
  zone transfer), so no modelled failure lets an exception escape.

Python dictionaries preserve insertion order, so the desired-remote map is
modelled as an association list; the parser's result set is modelled as the
list of matched ids (membership is all the driver uses).  Recursions that
advance by a computed suffix (`re.sub` and `re.findall` scanning) take a fuel
argument instantiated with the input length; fuel never runs out because each
step consumes at least one character, and the lemmas below carry the
`length ≤ fuel` invariant.
-/

set_option maxRecDepth 16000

namespace Reconcile

/-- ASCII reading of Python's `\w` (word character). -/
def isWordChar (c : Char) : Bool := c.isAlphanum || c = '_'

/-- ASCII reading of Python's `\s` (whitespace). -/
def isPySpace (c : Char) : Bool :=
  c = ' ' || c = '\t' || c = '\n' || c = '\r' || c = '\x0b' || c = '\x0c'

/-- `containsSub pat l` is Python's `pat in l`: `pat` occurs as a contiguous
substring of `l`. -/
def containsSub (pat : List Char) : List Char → Bool
  | [] => decide (pat = [])
  | c :: rest => pat.isPrefixOf (c :: rest) || containsSub pat rest

/-- Suffix of `l` just after the first occurrence of `pat`, as in
`re.search` with a literal prefix: `none` when `pat` does not occur. -/
def findSub (pat : List Char) : List Char → Option (List Char)
  | [] => if pat = [] then some [] else none
  | c :: rest =>
    if pat.isPrefixOf (c :: rest) then some ((c :: rest).drop pat.length)
    else findSub pat rest

/-- `\w+:` matched at the head of the list, after its leading word
character: scan word characters until a colon. -/
def colonAfterWords : List Char → Bool
  | [] => false
  | c :: rest => if c = ':' then true else isWordChar c && colonAfterWords rest

/-- `\w+:` matches at the head of the list. -/
def wordColonHere : List Char → Bool
  | [] => false
  | c :: rest => isWordChar c && colonAfterWords rest

/-- The text captured by the lazy group in `remote:(.*?)(\w+:|$)` under
`re.DOTALL`: the shortest prefix of the remainder that is followed either by
a `\w+:` match or by `$` (end of string, handled by the `[]` case, or a final
newline). -/
def lazyCapture : List Char → List Char
  | [] => []
  | c :: rest =>
    if wordColonHere (c :: rest) || (c = '\n' && rest = []) then []
    else c :: lazyCapture rest

/-- The literal part of the id pattern `r'-    id:  (\S+)'`. -/
def idMarker : List Char := "-    id:  ".data

/-- `re.findall(r'-    id:  (\S+)', l)`: every occurrence of the literal
marker followed by a maximal nonempty run of non-whitespace; scanning resumes
after each match.  `fuel` bounds the recursion and is at least the length of
the scanned list at every call site. -/
def findIdsAux : Nat → List Char → List (List Char)
  | _, [] => []
  | 0, _ => []
  | fuel + 1, c :: rest =>
    if idMarker.isPrefixOf (c :: rest) then
      let after := (c :: rest).drop idMarker.length
      let tok := after.takeWhile (fun ch => !(isPySpace ch))
      if tok = [] then findIdsAux fuel rest
      else tok :: findIdsAux fuel (after.drop tok.length)
    else findIdsAux fuel rest

/-- `re.findall(r'-    id:  (\S+)', l)` with enough fuel. -/
def findIds (l : List Char) : List (List Char) := findIdsAux l.length l

/-- The parser `get_current_remotes_from_config`, applied to the text of an
existing configuration file (the driver models the missing-file case
separately).  Python builds a `set` from the matches; the list of matches is
returned here and used only through membership. -/
def get_current_remotes_from_config (content : List Char) : List (List Char) :=
  match findSub ("remote:".data) content with
  | none => []
  | some suffix => findIds (lazyCapture suffix)

/-- Python's `str.split(sep)` for a one-character separator: split at every
separator occurrence; the result is never empty (`"".split('.') == ['']`). -/
def pySplit (sep : Char) : List Char → List (List Char)
  | [] => [[]]
  | c :: rest =>
    if c = sep then [] :: pySplit sep rest
    else
      match pySplit sep rest with
      | [] => [[c]]
      | h :: t => (c :: h) :: t

/-- The Catalog Reader's pure derivation: from a member zone name to the
remote id and address, as in
`base_name = zone_name.split('.')[0]`,
`remote_id = f"{base_name}-remote"`,
`fqdn = f"site-{base_name}.dns.internal"`. -/
def derive_remote (zone_name : List Char) : List Char × List Char :=
  let base_name := (pySplit '.' zone_name).headD []
  (base_name ++ "-remote".data, "site-".data ++ base_name ++ ".dns.internal".data)

/-- Modelled from the spec's words: "the zone name's first dot-delimited
label", used to compare the code's derivation against the spec's
description. -/
def firstLabel (zone_name : List Char) : List Char :=
  zone_name.takeWhile (fun c => !(c = '.'))

/-- The four lines of one inserted remote block (each string in the Python
list ends in a newline). -/
def mkBlock (remote_id fqdn : List Char) : List (List Char) :=
  ["      - id: ".data ++ remote_id ++ ['\n'],
   "        address: ".data ++ fqdn ++
     "@853 # !!! CHANGE THIS to the site\x27s FQDN !!!".data ++ ['\n'],
   "        key: xfr-key\n".data,
   "        quic: on\n".data]

/-- `", ".join(keys)`. -/
def joinIds : List (List Char) → List Char
  | [] => []
  | [k] => k
  | k :: rest => k ++ ',' :: ' ' :: joinIds rest

/-- Python `readlines`: split into lines, each keeping its trailing newline;
a last line without a newline is kept as well. -/
def splitLinesKeep : List Char → List (List Char)
  | [] => []
  | c :: rest =>
    if c = '\n' then ['\n'] :: splitLinesKeep rest
    else
      match splitLinesKeep rest with
      | [] => [[c]]
      | l :: ls => (c :: l) :: ls

/-- `"".join(lines)`. -/
def joinAll : List (List Char) → List Char
  | [] => []
  | l :: ls => l ++ joinAll ls

/-- Index of the first line containing `remote:`, as found by
`for i, line in enumerate(lines): if "remote:" in line: ...`. -/
def firstAnchorIdx : List (List Char) → Option Nat
  | [] => none
  | l :: rest =>
    if containsSub ("remote:".data) l then some 0
    else (firstAnchorIdx rest).map (· + 1)

/-- Python list splice `l[i:i] = new`. -/
def spliceAt (i : Nat) (new l : List (List Char)) : List (List Char) :=
  l.take i ++ new ++ l.drop i

/-- The block-insertion loop: for each missing remote, in map iteration
order, splice its block at index `i + 1` of the (growing) line list. -/
def insertBlocksAt (i : Nat) : List (List Char × List Char) → List (List Char) → List (List Char)
  | [], lines => lines
  | (remote_id, fqdn) :: rest, lines =>
    insertBlocksAt i rest (spliceAt (i + 1) (mkBlock remote_id fqdn) lines)

/-- One attempted match of `(name:\s*\[[^\]]*)` at the head of the list,
where `nameC` is `name` followed by the colon.  On success, returns the
captured text (`name:`, the greedy whitespace run, `[`, and the greedy run of
non-`]` characters) and the unconsumed remainder. -/
def tryMatchList (nameC l : List Char) : Option (List Char × List Char) :=
  if l.take nameC.length = nameC then
    match (l.drop nameC.length).dropWhile isPySpace with
    | c :: r3 =>
      if c = '[' then
        some (nameC ++ (l.drop nameC.length).takeWhile isPySpace ++
                '[' :: r3.takeWhile (fun ch => !(ch = ']')),
              r3.dropWhile (fun ch => !(ch = ']')))
      else none
    | [] => none
  else none

/-- `pattern.sub(...)` scanning: left to right, replace each non-overlapping
match of `(nameC\s*\[[^\]]*)` by the literal replacement string
`'\x01' ++ ", " ++ ids` (the source's `f"\1, {ids}"`, where `\1` is Python's
octal escape for U+0001, not a backreference — the captured span is
discarded), and resume after the match.  `fuel` bounds the recursion and is
at least the length of the scanned list at every call site (each step
consumes at least one character). -/
def append_to_list_aux (nameC ids : List Char) : Nat → List Char → List Char
  | _, [] => []
  | 0, l => l
  | fuel + 1, c :: rest =>
    match tryMatchList nameC (c :: rest) with
    | some (_cap, rem) =>
      '\x01' :: ',' :: ' ' :: ids ++ append_to_list_aux nameC ids fuel rem
    | none => c :: append_to_list_aux nameC ids fuel rest

/-- `append_to_list(list_name, content)` from the source: substitute every
match of `(list_name:\s*\[[^\]]*)` by the replacement string
`chr(1) + ", " + joined new remote ids` — the matched directive name,
opening bracket and prior entries are deleted. -/
def append_to_list (list_name ids content : List Char) : List Char :=
  append_to_list_aux (list_name ++ [':']) ids content.length content

/-- Step 1 of `generate_new_config`: the line list after block insertion
(the loop inserts after the first line containing `remote:` and does nothing
when no such line exists). -/
def linesAfterInsert (content : List Char) (new_remotes : List (List Char × List Char)) :
    List (List Char) :=
  match firstAnchorIdx (splitLinesKeep content) with
  | some i => insertBlocksAt i new_remotes (splitLinesKeep content)
  | none => splitLinesKeep content

/-- `generate_new_config(new_remotes)` applied to the current file content:
insert the remote blocks after the first line containing `remote:` (a no-op
when no such line exists), join the lines, then extend the `remote` and
`master` bracketed lists. -/
def generate_new_config (content : List Char) (new_remotes : List (List Char × List Char)) :
    List Char :=
  let s := joinAll (linesAfterInsert content new_remotes)
  let ids := joinIds (new_remotes.map Prod.fst)
  append_to_list ("master".data) ids (append_to_list ("remote".data) ids s)

/-- The anchor / `remote`-list pattern token `remote:`. -/
def anchTok : List Char := "remote:".data

/-- The `master`-list pattern token `master:`. -/
def mastTok : List Char := "master:".data

/-- The text of one inserted remote block (its four lines joined). -/
def blockText (remote_id fqdn : List Char) : List Char :=
  joinAll (mkBlock remote_id fqdn)

/-- The lines inserted by the block-insertion loop, in the order they end up
in the document: each block is spliced at the same index, so the last
remote's block comes first. -/
def blocksOf : List (List Char × List Char) → List (List Char)
  | [] => []
  | (remote_id, fqdn) :: rest => blocksOf rest ++ mkBlock remote_id fqdn

/-- The inserted block text for a whole missing map. -/
def blocksTextOf (rs : List (List Char × List Char)) : List Char :=
  joinAll (blocksOf rs)

/-- A bracketed list directive `nameC [entries]` followed by `tail`
(`nameC` carries its colon, a single space separates it from `[`). -/
def listSeg (nameC entries tail : List Char) : List Char :=
  nameC ++ ' ' :: '[' :: (entries ++ ']' :: tail)

/-- What the substitution leaves where a bracketed directive stood: the
matched span (directive name, single space, `[`, prior entries) is replaced
by the control character U+0001 followed by `, ` and the joined ids; the
closing bracket and the following text are preserved. -/
def listSegReplaced (ids tail : List Char) : List Char :=
  '\x01' :: ',' :: ' ' :: (ids ++ ']' :: tail)

/-- Well-formed base document shape used for the synthesizer theorems:
a preamble `Pa` (ending with the explicit newline), the `remote:` section
header line, a body `B`, a single `remote:` bracketed list, a middle part
`M`, a single `master:` bracketed list, and a tail `T`. -/
def famDoc (Pa B L1 M L2 T : List Char) : List Char :=
  Pa ++ '\n' :: (anchTok ++ '\n' :: (B ++ listSeg anchTok L1 (M ++ listSeg mastTok L2 T)))

/-- The document text after block insertion, up to (excluding) the `remote:`
bracketed list. -/
def famPre1 (rs : List (List Char × List Char)) (Pa B : List Char) : List Char :=
  Pa ++ '\n' :: (anchTok ++ '\n' :: (blocksTextOf rs ++ B))

/-- The document text after block insertion (before the list substitutions). -/
def famS1 (rs : List (List Char × List Char)) (Pa B L1 M L2 T : List Char) : List Char :=
  famPre1 rs Pa B ++ listSeg anchTok L1 (M ++ listSeg mastTok L2 T)

/-- The document text after the `remote` list substitution (which deleted
the `remote:` directive, its bracket and its prior entries `L1`), up to
(excluding) the `master:` bracketed list. -/
def famPre2 (rs : List (List Char × List Char)) (Pa B M : List Char) : List Char :=
  famPre1 rs Pa B ++ '\x01' :: ',' :: ' ' :: (joinIds (rs.map Prod.fst) ++ ']' :: M)

/-- The document text after the `remote` list substitution. -/
def famS2 (rs : List (List Char × List Char)) (Pa B M L2 T : List Char) : List Char :=
  famPre2 rs Pa B M ++ listSeg mastTok L2 T

/-- The synthesizer output on `famDoc`: blocks inserted right after the
header (in reverse map order), and each of the two bracketed list
directives destructively replaced by U+0001, `, ` and the forward-order
joined ids (its name, bracket and prior entries are gone). -/
def famOut (rs : List (List Char × List Char)) (Pa B M T : List Char) : List Char :=
  Pa ++ '\n' :: (anchTok ++ '\n' :: (blocksTextOf rs ++ B ++
    listSegReplaced (joinIds (rs.map Prod.fst))
      (M ++ listSegReplaced (joinIds (rs.map Prod.fst)) T)))

/-- Outcomes of the external collaborators for one run of `main`:
whether the in-cluster client loads, the zone-transfer result (`none` models
the AXFR raising), the config file content (`none` models a missing file),
and whether the ConfigMap read/replace and the StatefulSet patch succeed. -/
structure RunInput where
  k8sOk : Bool
  transfer : Option (List (List Char × List Char))
  configFile : Option (List Char)
  cmWriteOk : Bool
  restartOk : Bool
deriving DecidableEq, Repr

/-- Externally visible effects of one run of `main`: the content written to
the ConfigMap (`none` when no write happened, in which case the stored
document keeps its old content), whether a restart was signaled, and whether
the process terminated normally (no exception escaped). -/
structure RunResult where
  cmWritten : Option (List Char)
  restartSignaled : Bool
  completed : Bool
deriving DecidableEq, Repr

/-- The convergence driver `main`.  Failure paths: cluster client
construction failing returns early; an AXFR failure calls `exit(0)`; a
missing config file makes the parser return `None` and `main` return; an
empty missing set returns before any write; a ConfigMap error returns before
the restart patch; a restart error returns last.  All are normal
terminations with no further side effects. -/
def runMain (inp : RunInput) : RunResult :=
  if !inp.k8sOk then ⟨none, false, true⟩
  else
    match inp.transfer with
    | none => ⟨none, false, true⟩
    | some desired_remotes =>
      match inp.configFile with
      | none => ⟨none, false, true⟩
      | some content =>
        let current_remotes := get_current_remotes_from_config content
        let missing_remotes_ids :=
          (desired_remotes.map Prod.fst).filter (fun k => !(current_remotes.contains k))
        if missing_remotes_ids = [] then ⟨none, false, true⟩
        else
          let remotes_to_add :=
            desired_remotes.filter (fun kv => missing_remotes_ids.contains kv.1)
          let new_knot_conf := generate_new_config content remotes_to_add
          if !inp.cmWriteOk then ⟨none, false, true⟩
          else if !inp.restartOk then ⟨some new_knot_conf, false, true⟩
          else ⟨some new_knot_conf, true, true⟩

/-! Section: Lemmas about the config parser

The lazy group of `remote:(.*?)(\w+:|$)` stops at the first position where
`\w+:` matches, so the captured section can never contain a `\w+:` substring;
in particular it can never contain the `id:` inside the id marker, so the
`findall` over the section never matches. -/

theorem colonAfterWords_append {xs : List Char} (ys : List Char)
    (h : colonAfterWords xs = true) : colonAfterWords (xs ++ ys) = true := by
  induction xs with
  | nil => simp [colonAfterWords] at h
  | cons c r ih =>
    by_cases hc : c = ':'
    · simp [colonAfterWords, hc]
    · simp only [colonAfterWords, hc, if_false, Bool.and_eq_true] at h
      simp only [List.cons_append, colonAfterWords, hc, if_false, Bool.and_eq_true]
      exact ⟨h.1, ih h.2⟩

theorem wordColonHere_append {xs : List Char} (ys : List Char)
    (h : wordColonHere xs = true) : wordColonHere (xs ++ ys) = true := by
  cases xs with
  | nil => simp [wordColonHere] at h
  | cons c r =>
    simp only [wordColonHere, Bool.and_eq_true] at h
    simp only [List.cons_append, wordColonHere, Bool.and_eq_true]
    exact ⟨h.1, colonAfterWords_append ys h.2⟩

theorem lazyCapture_eq_append (l : List Char) : ∃ t, lazyCapture l ++ t = l := by
  induction l with
  | nil => exact ⟨[], rfl⟩
  | cons c rest ih =>
    by_cases hcond :
        (wordColonHere (c :: rest) || (decide (c = '\n') && decide (rest = []))) = true
    · refine ⟨c :: rest, ?_⟩
      rw [lazyCapture, if_pos hcond]
      rfl
    · obtain ⟨t, ht⟩ := ih
      refine ⟨t, ?_⟩
      rw [lazyCapture, if_neg hcond, List.cons_append, ht]

theorem wordColonHere_drop_lazyCapture (l : List Char) (p : Nat) :
    wordColonHere ((lazyCapture l).drop p) = false := by
  induction l generalizing p with
  | nil => simp [lazyCapture, wordColonHere]
  | cons c rest ih =>
    by_cases hcond :
        (wordColonHere (c :: rest) || (decide (c = '\n') && decide (rest = []))) = true
    · rw [lazyCapture, if_pos hcond]
      simp [wordColonHere]
    · rw [lazyCapture, if_neg hcond]
      cases p with
      | zero =>
        simp only [List.drop_zero]
        by_contra hw
        rw [Bool.not_eq_false] at hw
        obtain ⟨t, ht⟩ := lazyCapture_eq_append rest
        have hext : wordColonHere ((c :: lazyCapture rest) ++ t) = true :=
          wordColonHere_append t hw
        rw [List.cons_append, ht] at hext
        simp [hext] at hcond
      | succ p => simpa using ih p

theorem wordColonHere_of_idMarker {l : List Char} (h : idMarker.isPrefixOf l = true) :
    wordColonHere (l.drop 5) = true := by
  obtain ⟨t, ht⟩ := ( List.isPrefixOf_iff_prefix).mp h
  rw [← ht]
  rfl

theorem findIdsAux_nil {l : List Char} (fuel : Nat)
    (h : ∀ p, wordColonHere (l.drop p) = false) : findIdsAux fuel l = [] := by
  induction fuel generalizing l with
  | zero => cases l <;> rfl
  | succ fuel ih =>
    cases l with
    | nil => rfl
    | cons c rest =>
      have hm : idMarker.isPrefixOf (c :: rest) = false := by
        by_contra hmm
        rw [Bool.not_eq_false] at hmm
        have := wordColonHere_of_idMarker hmm
        rw [h 5] at this
        exact Bool.false_ne_true this
      rw [findIdsAux, hm]
      simp only [Bool.false_eq_true, if_false]
      exact ih fun p => h (p + 1)

/-- The parser returns the empty set on every input document: whatever the
lazy group captures contains no `\w+:` occurrence, hence no `id:`, hence no
match of the id pattern. -/
theorem get_current_remotes_empty (content : List Char) :
    get_current_remotes_from_config content = [] := by
  rw [get_current_remotes_from_config]
  cases findSub ("remote:".data) content with
  | none => rfl
  | some suffix =>
    exact findIdsAux_nil _ (wordColonHere_drop_lazyCapture suffix)

/-! Section: Lemmas about the derivation -/

theorem pySplit_ne_nil (sep : Char) (l : List Char) : pySplit sep l ≠ [] := by
  cases l with
  | nil => simp [pySplit]
  | cons c rest =>
    rw [pySplit]
    by_cases hc : c = sep
    · simp [hc]
    · simp only [hc, if_false]
      cases pySplit sep rest <;> simp

theorem pySplit_headD (sep : Char) (l : List Char) :
    (pySplit sep l).headD [] = l.takeWhile (fun c => !(c = sep)) := by
  induction l with
  | nil => rfl
  | cons c rest ih =>
    rw [pySplit]
    by_cases hc : c = sep
    · simp [hc, List.takeWhile_cons]
    · simp only [hc, if_false]
      cases heq : pySplit sep rest with
      | nil => exact absurd heq (pySplit_ne_nil sep rest)
      | cons h t =>
        rw [heq] at ih
        simp only [List.headD_cons] at ih
        simp [List.takeWhile_cons, hc, ← ih]

/-! Section: Lemmas about `containsSub` and prefixes -/

theorem isPrefixOf_append_ext {pat u : List Char} (v : List Char)
    (h : pat.isPrefixOf u = true) : pat.isPrefixOf (u ++ v) = true := by
  rw [ List.isPrefixOf_iff_prefix] at h ⊢
  exact h.trans (u.prefix_append v)

theorem containsSub_nil_pat (l : List Char) : containsSub [] l = true := by
  cases l <;> simp [containsSub]

theorem containsSub_append_right {pat s : List Char} (t : List Char)
    (h : containsSub pat s = true) : containsSub pat (t ++ s) = true := by
  induction t with
  | nil => simpa using h
  | cons c t ih =>
    rw [List.cons_append, containsSub, ih]
    simp

theorem containsSub_append_left {pat s : List Char} (t : List Char)
    (h : containsSub pat s = true) : containsSub pat (s ++ t) = true := by
  induction s with
  | nil =>
    rw [containsSub] at h
    rw [List.nil_append]
    exact (decide_eq_true_eq.mp h) ▸ containsSub_nil_pat t
  | cons c s ih =>
    rw [containsSub, Bool.or_eq_true] at h
    rw [List.cons_append, containsSub, Bool.or_eq_true]
    rcases h with h | h
    · exact Or.inl (isPrefixOf_append_ext t h)
    · exact Or.inr (ih h)

theorem containsSub_drop {pat l : List Char} (p : Nat)
    (h : containsSub pat l = false) : containsSub pat (l.drop p) = false := by
  induction p generalizing l with
  | zero => simpa using h
  | succ p ih =>
    cases l with
    | nil => simpa using h
    | cons c rest =>
      rw [containsSub, Bool.or_eq_false_iff] at h
      exact ih h.2

theorem containsSub_of_take {pat l : List Char}
    (h : l.take pat.length = pat) : containsSub pat l = true := by
  have hp : pat.isPrefixOf l = true := by
    rw [ List.isPrefixOf_iff_prefix]
    refine ⟨l.drop pat.length, ?_⟩
    have htd : l.take pat.length ++ l.drop pat.length = l := List.take_append_drop _ _
    rw [h] at htd
    exact htd
  cases l with
  | nil => simpa [containsSub, List.isPrefixOf] using hp
  | cons c rest =>
    rw [containsSub, hp]
    simp

theorem containsSub_of_mem_joinAll {pat piece : List Char} {pieces : List (List Char)}
    (hmem : piece ∈ pieces) (h : containsSub pat piece = true) :
    containsSub pat (joinAll pieces) = true := by
  induction pieces with
  | nil => cases hmem
  | cons l ls ih =>
    rw [joinAll]
    rcases List.mem_cons.mp hmem with rfl | hmem
    · exact containsSub_append_left _ h
    · exact containsSub_append_right _ (ih hmem)

/-! Section: Lemmas about `append_to_list` -/

theorem tryMatch_nil (nameC : List Char) : tryMatchList nameC [] = none := by
  rw [tryMatchList]
  by_cases h : ([] : List Char).take nameC.length = nameC
  · rw [if_pos h]
    simp only [List.drop_nil, List.dropWhile_nil]
  · rw [if_neg h]

theorem tryMatch_parts {nameC l cap rem : List Char}
    (h : tryMatchList nameC l = some (cap, rem)) : l = cap ++ rem ∧ 0 < cap.length := by
  rw [tryMatchList] at h
  split at h
  next ht =>
    split at h
    next c r3 heq =>
      split at h
      next hc =>
        subst hc
        injection h with h'
        injection h' with hcap hrem
        constructor
        · have h0 : l.take nameC.length ++ l.drop nameC.length = l := List.take_append_drop _ _
          rw [ht] at h0
          have h1 : (l.drop nameC.length).takeWhile isPySpace ++
              (l.drop nameC.length).dropWhile isPySpace = l.drop nameC.length :=
            List.takeWhile_append_dropWhile ..
          have h2 : r3.takeWhile (fun ch => !(ch = ']')) ++
              r3.dropWhile (fun ch => !(ch = ']')) = r3 :=
            List.takeWhile_append_dropWhile ..
          rw [← hcap, ← hrem]
          calc l = nameC ++ l.drop nameC.length := h0.symm
            _ = nameC ++ ((l.drop nameC.length).takeWhile isPySpace ++
                  (l.drop nameC.length).dropWhile isPySpace) := by rw [h1]
            _ = nameC ++ ((l.drop nameC.length).takeWhile isPySpace ++ ('[' :: r3)) := by
                  rw [heq]
            _ = nameC ++ ((l.drop nameC.length).takeWhile isPySpace ++
                  ('[' :: (r3.takeWhile (fun ch => !(ch = ']')) ++
                    r3.dropWhile (fun ch => !(ch = ']'))))) := by rw [h2]
            _ = (nameC ++ (l.drop nameC.length).takeWhile isPySpace ++
                  '[' :: r3.takeWhile (fun ch => !(ch = ']'))) ++
                  r3.dropWhile (fun ch => !(ch = ']')) := by simp [List.append_assoc]
        · rw [← hcap]
          simp
      next => exact absurd h (by simp)
    next => exact absurd h (by simp)
  next => exact absurd h (by simp)

theorem tryMatch_rem_lt {nameC l cap rem : List Char}
    (h : tryMatchList nameC l = some (cap, rem)) : rem.length < l.length := by
  obtain ⟨heq, hpos⟩ := tryMatch_parts h
  rw [heq, List.length_append]
  omega

theorem tryMatch_none_of_not_containsSub {nameC l : List Char}
    (h : containsSub nameC l = false) : tryMatchList nameC l = none := by
  rw [tryMatchList]
  by_cases ht : l.take nameC.length = nameC
  · exact absurd (containsSub_of_take ht) (by rw [h]; exact Bool.false_ne_true)
  · rw [if_neg ht]

theorem append_aux_nil (nameC ids : List Char) (fuel : Nat) :
    append_to_list_aux nameC ids fuel [] = [] := by
  cases fuel <;> rfl

theorem append_aux_cons_none {nameC : List Char} (ids : List Char) {c : Char}
    {rest : List Char} (fuel : Nat) (h : tryMatchList nameC (c :: rest) = none) :
    append_to_list_aux nameC ids (fuel + 1) (c :: rest) =
      c :: append_to_list_aux nameC ids fuel rest := by
  rw [append_to_list_aux, h]

theorem append_aux_cons_some {nameC cap rem : List Char} (ids : List Char) {c : Char}
    {rest : List Char} (fuel : Nat)
    (h : tryMatchList nameC (c :: rest) = some (cap, rem)) :
    append_to_list_aux nameC ids (fuel + 1) (c :: rest) =
      '\x01' :: ',' :: ' ' :: ids ++ append_to_list_aux nameC ids fuel rem := by
  rw [append_to_list_aux, h]

theorem append_aux_congr (nameC ids : List Char) :
    ∀ n f₁ f₂ (l : List Char), l.length = n → l.length ≤ f₁ → l.length ≤ f₂ →
      append_to_list_aux nameC ids f₁ l = append_to_list_aux nameC ids f₂ l := by
  intro n
  induction n using Nat.strong_induction_on with
  | _ n ih =>
    intro f₁ f₂ l hn h₁ h₂
    cases l with
    | nil => rw [append_aux_nil, append_aux_nil]
    | cons c rest =>
      cases f₁ with
      | zero => simp at h₁
      | succ g₁ =>
        cases f₂ with
        | zero => simp at h₂
        | succ g₂ =>
          cases hm : tryMatchList nameC (c :: rest) with
          | none =>
            rw [append_aux_cons_none ids g₁ hm, append_aux_cons_none ids g₂ hm]
            have hlt : rest.length < n := by simp at hn; omega
            rw [ih rest.length hlt g₁ g₂ rest rfl (by simp at h₁; omega)
              (by simp at h₂; omega)]
          | some capRem =>
            obtain ⟨cap, rem⟩ := capRem
            rw [append_aux_cons_some ids g₁ hm, append_aux_cons_some ids g₂ hm]
            have hrl : rem.length < (c :: rest).length := tryMatch_rem_lt hm
            have hlt : rem.length < n := by omega
            rw [ih rem.length hlt g₁ g₂ rem rfl (by simp at h₁ hrl ⊢; omega)
              (by simp at h₂ hrl ⊢; omega)]

theorem append_aux_noFire (nameC ids : List Char) :
    ∀ (fuel : Nat) (l : List Char), l.length ≤ fuel →
      (∀ p, tryMatchList nameC (l.drop p) = none) →
      append_to_list_aux nameC ids fuel l = l := by
  intro fuel
  induction fuel with
  | zero =>
    intro l hl _
    cases l with
    | nil => rfl
    | cons c rest => simp at hl
  | succ fuel ih =>
    intro l hl hnf
    cases l with
    | nil => rfl
    | cons c rest =>
      have h0 : tryMatchList nameC (c :: rest) = none := by simpa using hnf 0
      rw [append_aux_cons_none ids fuel h0]
      rw [ih rest (by simp at hl; omega) (fun p => by simpa using hnf (p + 1))]

theorem append_aux_fire (nameC ids : List Char) :
    ∀ (pre : List Char) (fuel : Nat) (rest cap rem : List Char),
      (pre ++ rest).length ≤ fuel →
      (∀ p, p < pre.length → tryMatchList nameC ((pre ++ rest).drop p) = none) →
      tryMatchList nameC rest = some (cap, rem) →
      append_to_list_aux nameC ids fuel (pre ++ rest) =
        pre ++ '\x01' :: ',' :: ' ' :: ids ++
          append_to_list_aux nameC ids (fuel - pre.length - 1) rem := by
  intro pre
  induction pre with
  | nil =>
    intro fuel rest cap rem hfuel _ hm
    cases rest with
    | nil => rw [tryMatch_nil] at hm; exact absurd hm (by simp)
    | cons c r =>
      cases fuel with
      | zero => simp at hfuel
      | succ g =>
        rw [List.nil_append, append_aux_cons_some ids g hm]
        simp

  | cons c pre' ih =>
    intro fuel rest cap rem hfuel hpre hm
    cases fuel with
    | zero => simp at hfuel
    | succ g =>
      rw [List.cons_append]
      have h0 : tryMatchList nameC (c :: (pre' ++ rest)) = none := by
        have hh := hpre 0 (by simp)
        simpa using hh
      rw [append_aux_cons_none ids g h0]
      have hih := ih g rest cap rem (by simp at hfuel ⊢; omega)
        (fun p hp => by
          have hh := hpre (p + 1) (by simp; omega)
          simpa using hh) hm
      rw [hih]
      have harith : g + 1 - (c :: pre').length - 1 = g - pre'.length - 1 := by
        simp only [List.length_cons]
        omega
      rw [harith]
      simp

/-! Section: Lemmas about lines, joining and block insertion -/

theorem joinAll_append (xs ys : List (List Char)) :
    joinAll (xs ++ ys) = joinAll xs ++ joinAll ys := by
  induction xs with
  | nil => rfl
  | cons l ls ih => rw [List.cons_append, joinAll, joinAll, ih, List.append_assoc]

theorem joinAll_splitLinesKeep (l : List Char) : joinAll (splitLinesKeep l) = l := by
  induction l with
  | nil => rfl
  | cons c rest ih =>
    rw [splitLinesKeep]
    by_cases hc : c = '\n'
    · rw [if_pos hc, joinAll, hc]
      rw [ih]
      rfl
    · rw [if_neg hc]
      cases heq : splitLinesKeep rest with
      | nil =>
        rw [heq, joinAll] at ih
        rw [joinAll, joinAll, ← ih]
        rfl
      | cons h t =>
        rw [heq, joinAll] at ih
        rw [joinAll, List.cons_append, ih]

theorem splitLinesKeep_ne_nil {l : List Char} (h : l ≠ []) : splitLinesKeep l ≠ [] := by
  cases l with
  | nil => exact absurd rfl h
  | cons c rest =>
    rw [splitLinesKeep]
    by_cases hc : c = '\n'
    · rw [if_pos hc]
      simp
    · rw [if_neg hc]
      cases splitLinesKeep rest <;> simp

theorem splitLinesKeep_append (a Q : List Char) :
    splitLinesKeep (a ++ '\n' :: Q) = splitLinesKeep (a ++ ['\n']) ++ splitLinesKeep Q := by
  induction a with
  | nil => simp [splitLinesKeep]
  | cons c a' ih =>
    by_cases hc : c = '\n'
    · rw [List.cons_append, splitLinesKeep, if_pos hc, ih]
      rw [List.cons_append, splitLinesKeep, if_pos hc]
      rfl
    · rw [List.cons_append, splitLinesKeep, if_neg hc, ih]
      have hne : splitLinesKeep (a' ++ ['\n']) ≠ [] := splitLinesKeep_ne_nil (by simp)
      cases heq : splitLinesKeep (a' ++ ['\n']) with
      | nil => exact absurd heq hne
      | cons h t =>
        rw [List.cons_append]
        rw [List.cons_append]
        rw [splitLinesKeep, if_neg hc, heq]
        rfl

theorem firstAnchorIdx_append :
    ∀ (xs : List (List Char)), (∀ x ∈ xs, containsSub ("remote:".data) x = false) →
      ∀ (z : List Char) (ys : List (List Char)),
        containsSub ("remote:".data) z = true →
        firstAnchorIdx (xs ++ z :: ys) = some xs.length := by
  intro xs
  induction xs with
  | nil =>
    intro _ z ys hz
    rw [List.nil_append, firstAnchorIdx, if_pos hz]
    rfl
  | cons x xs ih =>
    intro hxs z ys hz
    rw [List.cons_append, firstAnchorIdx]
    have hx : containsSub ("remote:".data) x = false := hxs x (by simp)
    rw [hx]
    simp only [Bool.false_eq_true, if_false]
    rw [ih (fun w hw => hxs w (by simp [hw])) z ys hz]
    rfl

theorem firstAnchorIdx_none {lines : List (List Char)}
    (h : ∀ x ∈ lines, containsSub ("remote:".data) x = false) :
    firstAnchorIdx lines = none := by
  induction lines with
  | nil => rfl
  | cons x xs ih =>
    rw [firstAnchorIdx, h x (by simp)]
    simp only [Bool.false_eq_true, if_false]
    rw [ih (fun w hw => h w (by simp [hw]))]
    rfl

theorem length_spliceAt (i : Nat) (new l : List (List Char)) :
    (spliceAt i new l).length = (l.take i).length + new.length + (l.drop i).length := by
  rw [spliceAt, List.length_append, List.length_append]

theorem insertBlocksAt_eq :
    ∀ (rs : List (List Char × List Char)) (i : Nat) (lines : List (List Char)),
      i < lines.length →
      insertBlocksAt i rs lines =
        lines.take (i + 1) ++ blocksOf rs ++ lines.drop (i + 1) := by
  intro rs
  induction rs with
  | nil =>
    intro i lines _
    rw [insertBlocksAt, blocksOf]
    simp [List.take_append_drop]
  | cons r rest ih =>
    intro i lines hi
    obtain ⟨remote_id, fqdn⟩ := r
    rw [insertBlocksAt]
    have htake : (lines.take (i + 1)).length = i + 1 := by
      rw [List.length_take]
      omega
    have hlen : i < (spliceAt (i + 1) (mkBlock remote_id fqdn) lines).length := by
      rw [length_spliceAt, htake]
      omega
    rw [ih i _ hlen]
    rw [spliceAt]
    have h1 : (lines.take (i + 1) ++ mkBlock remote_id fqdn ++ lines.drop (i + 1)).take (i + 1) =
        lines.take (i + 1) := by
      rw [List.append_assoc]
      exact List.take_left' htake
    have h2 : (lines.take (i + 1) ++ mkBlock remote_id fqdn ++ lines.drop (i + 1)).drop (i + 1) =
        mkBlock remote_id fqdn ++ lines.drop (i + 1) := by
      rw [List.append_assoc]
      exact List.drop_left' htake
    rw [h1, h2, blocksOf]
    simp [List.append_assoc]

/-! Section: Applying `append_to_list` to structured documents -/

theorem takeWhile_append_all {p : Char → Bool} :
    ∀ {l : List Char}, (∀ c ∈ l, p c = true) → ∀ {b : Char}, p b = false →
      ∀ (t : List Char), (l ++ b :: t).takeWhile p = l := by
  intro l
  induction l with
  | nil =>
    intro _ b hb t
    rw [List.nil_append, List.takeWhile_cons, hb]
    simp
  | cons c l ih =>
    intro hl b hb t
    rw [List.cons_append, List.takeWhile_cons, hl c (by simp)]
    rw [ih (fun d hd => hl d (by simp [hd])) hb t]
    simp

theorem dropWhile_append_all {p : Char → Bool} :
    ∀ {l : List Char}, (∀ c ∈ l, p c = true) → ∀ {b : Char}, p b = false →
      ∀ (t : List Char), (l ++ b :: t).dropWhile p = b :: t := by
  intro l
  induction l with
  | nil =>
    intro _ b hb t
    rw [List.nil_append, List.dropWhile_cons, hb]
    simp
  | cons c l ih =>
    intro hl b hb t
    rw [List.cons_append, List.dropWhile_cons, hl c (by simp)]
    rw [ih (fun d hd => hl d (by simp [hd])) hb t]
    simp

theorem tryMatch_fire (nameC entries tail : List Char)
    (hent : entries.all (fun ch => !(ch = ']')) = true) :
    tryMatchList nameC (listSeg nameC entries tail) =
      some (nameC ++ ' ' :: '[' :: entries, ']' :: tail) := by
  have hallP : ∀ c ∈ entries, (fun ch => !(ch = ']')) c = true := List.all_eq_true.mp hent
  rw [tryMatchList, listSeg]
  rw [if_pos (List.take_left nameC _), List.drop_left nameC _]
  have hdw : (' ' :: '[' :: (entries ++ ']' :: tail)).dropWhile isPySpace =
      '[' :: (entries ++ ']' :: tail) := by
    rw [List.dropWhile_cons, show isPySpace ' ' = true by decide]
    rw [List.dropWhile_cons, show isPySpace '[' = false by decide]
    simp
  have htw : (' ' :: '[' :: (entries ++ ']' :: tail)).takeWhile isPySpace = [' '] := by
    rw [List.takeWhile_cons, show isPySpace ' ' = true by decide]
    rw [List.takeWhile_cons, show isPySpace '[' = false by decide]
    simp
  rw [hdw, htw]
  show (if ('[' : Char) = '[' then
      some (nameC ++ [' '] ++
          '[' :: (entries ++ ']' :: tail).takeWhile (fun ch => !(ch = ']')),
        (entries ++ ']' :: tail).dropWhile (fun ch => !(ch = ']')))
    else none) = some (nameC ++ ' ' :: '[' :: entries, ']' :: tail)
  rw [if_pos rfl]
  rw [takeWhile_append_all hallP (show (fun ch => !(ch = ']')) ']' = false by decide) tail]
  rw [dropWhile_append_all hallP (show (fun ch => !(ch = ']')) ']' = false by decide) tail]
  simp [List.append_assoc]

theorem append_to_list_noFire {nameC : List Char} (list_name ids content : List Char)
    (hname : list_name ++ [':'] = nameC)
    (h : ∀ p, p < content.length → tryMatchList nameC (content.drop p) = none) :
    append_to_list list_name ids content = content := by
  rw [append_to_list, hname]
  apply append_aux_noFire nameC ids content.length content le_rfl
  intro p
  by_cases hp : p < content.length
  · exact h p hp
  · rw [List.drop_of_length_le (by omega)]
    exact tryMatch_nil _

theorem append_to_list_single {nameC : List Char} (list_name ids pre rest cap rem : List Char)
    (hname : list_name ++ [':'] = nameC)
    (hpre : ∀ p, p < pre.length → tryMatchList nameC ((pre ++ rest).drop p) = none)
    (hm : tryMatchList nameC rest = some (cap, rem))
    (hrem : ∀ p, p < rem.length → tryMatchList nameC (rem.drop p) = none) :
    append_to_list list_name ids (pre ++ rest) =
      pre ++ '\x01' :: ',' :: ' ' :: ids ++ rem := by
  rw [append_to_list, hname]
  rw [append_aux_fire nameC ids pre (pre ++ rest).length rest cap rem le_rfl hpre hm]
  have hparts := tryMatch_parts hm
  have hrest : rest.length = cap.length + rem.length := by
    rw [hparts.1, List.length_append]
  have htail : append_to_list_aux nameC ids ((pre ++ rest).length - pre.length - 1) rem = rem := by
    apply append_aux_noFire nameC ids _ rem
    · rw [List.length_append]
      omega
    · intro p
      by_cases hp : p < rem.length
      · exact hrem p hp
      · rw [List.drop_of_length_le (by omega)]
        exact tryMatch_nil _
  rw [htail]

theorem linesAfterInsert_some {content : List Char} {i : Nat}
    (rs : List (List Char × List Char))
    (h : firstAnchorIdx (splitLinesKeep content) = some i) :
    linesAfterInsert content rs = insertBlocksAt i rs (splitLinesKeep content) := by
  rw [linesAfterInsert, h]

theorem linesAfterInsert_none {content : List Char}
    (rs : List (List Char × List Char))
    (h : firstAnchorIdx (splitLinesKeep content) = none) :
    linesAfterInsert content rs = splitLinesKeep content := by
  rw [linesAfterInsert, h]

/-- The synthesizer on a well-formed base document (`famDoc`): the blocks of
the missing remotes are inserted right after the `remote:` header line, in
the reverse of the map's iteration order, and both bracketed lists receive
`, id1, id2, ...` in forward iteration order, with all prior entries kept.
The positional hypotheses say that the `remote:` list pattern fires exactly
at the document's single `remote:` bracketed list and the `master:` pattern
exactly at its single `master:` bracketed list. -/
theorem generate_family (rs : List (List Char × List Char)) (Pa B L1 M L2 T : List Char)
    (hPa : containsSub ("remote:".data) (Pa ++ ['\n']) = false)
    (hL1 : L1.all (fun ch => !(ch = ']')) = true)
    (hL2 : L2.all (fun ch => !(ch = ']')) = true)
    (h1 : ∀ p, p < (famPre1 rs Pa B).length →
      tryMatchList anchTok ((famS1 rs Pa B L1 M L2 T).drop p) = none)
    (h2 : ∀ p, p < (']' :: (M ++ listSeg mastTok L2 T)).length →
      tryMatchList anchTok ((']' :: (M ++ listSeg mastTok L2 T)).drop p) = none)
    (h3 : ∀ p, p < (famPre2 rs Pa B M).length →
      tryMatchList mastTok ((famS2 rs Pa B M L2 T).drop p) = none)
    (h4 : ∀ p, p < (']' :: T).length → tryMatchList mastTok ((']' :: T).drop p) = none) :
    generate_new_config (famDoc Pa B L1 M L2 T) rs = famOut rs Pa B M T := by
  have hlines : splitLinesKeep (famDoc Pa B L1 M L2 T) =
      splitLinesKeep (Pa ++ ['\n']) ++ "remote:\n".data ::
        splitLinesKeep (B ++ listSeg anchTok L1 (M ++ listSeg mastTok L2 T)) := by
    rw [show famDoc Pa B L1 M L2 T = Pa ++ '\n' :: (anchTok ++ '\n' ::
      (B ++ listSeg anchTok L1 (M ++ listSeg mastTok L2 T))) from rfl]
    rw [splitLinesKeep_append Pa _, splitLinesKeep_append anchTok _]
    rw [show splitLinesKeep (anchTok ++ ['\n']) = ["remote:\n".data] by decide]
    rfl
  have hxs : ∀ x ∈ splitLinesKeep (Pa ++ ['\n']), containsSub ("remote:".data) x = false := by
    intro x hx
    by_contra hcon
    rw [Bool.not_eq_false] at hcon
    have hall := containsSub_of_mem_joinAll hx hcon
    rw [joinAll_splitLinesKeep, hPa] at hall
    exact Bool.false_ne_true hall
  have hanch : firstAnchorIdx (splitLinesKeep (famDoc Pa B L1 M L2 T)) =
      some (splitLinesKeep (Pa ++ ['\n'])).length := by
    rw [hlines]
    exact firstAnchorIdx_append _ hxs _ _ (by decide)
  have hlen : (splitLinesKeep (Pa ++ ['\n'])).length <
      (splitLinesKeep (famDoc Pa B L1 M L2 T)).length := by
    rw [hlines, List.length_append]
    simp
  have hsplit2 : splitLinesKeep (famDoc Pa B L1 M L2 T) =
      (splitLinesKeep (Pa ++ ['\n']) ++ ["remote:\n".data]) ++
        splitLinesKeep (B ++ listSeg anchTok L1 (M ++ listSeg mastTok L2 T)) := by
    rw [hlines]
    simp
  have htake : (splitLinesKeep (famDoc Pa B L1 M L2 T)).take
      ((splitLinesKeep (Pa ++ ['\n'])).length + 1) =
      splitLinesKeep (Pa ++ ['\n']) ++ ["remote:\n".data] := by
    rw [hsplit2]
    exact List.take_left' (by simp)
  have hdrop : (splitLinesKeep (famDoc Pa B L1 M L2 T)).drop
      ((splitLinesKeep (Pa ++ ['\n'])).length + 1) =
      splitLinesKeep (B ++ listSeg anchTok L1 (M ++ listSeg mastTok L2 T)) := by
    rw [hsplit2]
    exact List.drop_left' (by simp)
  have hjoin : joinAll (insertBlocksAt (splitLinesKeep (Pa ++ ['\n'])).length rs
      (splitLinesKeep (famDoc Pa B L1 M L2 T))) = famS1 rs Pa B L1 M L2 T := by
    rw [insertBlocksAt_eq rs _ _ hlen, htake, hdrop]
    simp only [joinAll_append, joinAll_splitLinesKeep]
    rw [show joinAll ["remote:\n".data] = anchTok ++ ['\n'] by decide]
    simp [famS1, famPre1, blocksTextOf, List.append_assoc]
  have happ1 : append_to_list ("remote".data) (joinIds (rs.map Prod.fst))
      (famS1 rs Pa B L1 M L2 T) = famS2 rs Pa B M L2 T := by
    have hsingle := append_to_list_single ("remote".data) (joinIds (rs.map Prod.fst))
      (famPre1 rs Pa B) (listSeg anchTok L1 (M ++ listSeg mastTok L2 T)) _ _
      (by decide) h1 (tryMatch_fire anchTok L1 _ hL1) h2
    rw [show famS1 rs Pa B L1 M L2 T = famPre1 rs Pa B ++
      listSeg anchTok L1 (M ++ listSeg mastTok L2 T) from rfl]
    rw [hsingle]
    simp [famS2, famPre2, listSeg, List.append_assoc]
  have happ2 : append_to_list ("master".data) (joinIds (rs.map Prod.fst))
      (famS2 rs Pa B M L2 T) = famOut rs Pa B M T := by
    have hsingle := append_to_list_single ("master".data) (joinIds (rs.map Prod.fst))
      (famPre2 rs Pa B M) (listSeg mastTok L2 T) _ _
      (by decide) h3 (tryMatch_fire mastTok L2 T hL2) h4
    rw [show famS2 rs Pa B M L2 T = famPre2 rs Pa B M ++
      listSeg mastTok L2 T from rfl]
    rw [hsingle]
    simp [famOut, famPre2, famPre1, listSegReplaced, listSeg, List.append_assoc]
  simp only [generate_new_config]
  rw [linesAfterInsert_some rs hanch, hjoin, happ1, happ2]

/-- Claim C2, corrected.  As stated the claim is false (see the
counterexample: on a document containing a bracketed `remote:` or `master:`
list value, the substitution still fires for an empty missing map and
replaces the whole matched span — directive name, bracket, prior entries —
by the control character U+0001 followed by `, `, so the transform is far
from the identity).  Amended claim, proved here: `generate_new_config` with
an empty `MissingRemoteSet` is the identity transform exactly on the
configuration documents in which neither the `remote:` nor the `master:`
bracketed-list pattern matches at any position; block insertion inserts
nothing even when a `remote:` anchor exists. -/
theorem C2_empty_missing_identity (C : List Char)
    (h1 : ∀ p, p < C.length → tryMatchList anchTok (C.drop p) = none)
    (h2 : ∀ p, p < C.length → tryMatchList mastTok (C.drop p) = none) :
    generate_new_config C [] = C := by
  have hli : linesAfterInsert C [] = splitLinesKeep C := by
    rw [linesAfterInsert]
    cases firstAnchorIdx (splitLinesKeep C) with
    | none => rfl
    | some i => rfl
  simp only [generate_new_config]
  rw [hli, joinAll_splitLinesKeep]
  rw [append_to_list_noFire ("remote".data) _ C (by decide) h1]
  rw [append_to_list_noFire ("master".data) _ C (by decide) h2]

/-- Claim C9, corrected.  As stated the claim is false twice over: a
document with no `remote:` anchor line contains no occurrence of `remote:`
at all (the insertion step keys on `"remote:" in line`), so the `remote`
list directive cannot exist and the missing ids are not appended to any
`remote` list; and the `master` list is not "extended" either — the
substitution's replacement string is `chr(1) + ", " + ids`, which deletes
the matched `master: [entries` span (see the counterexample).  Amended
claim, proved here: on a base document with no `remote:` occurrence,
holding a single `master:` bracketed list, `generate_new_config` inserts no
remote blocks and leaves the document unchanged except that the matched
`master:` directive, bracket and prior entries are replaced by U+0001
followed by `, ` and the joined missing identifiers. -/
theorem C9_missing_anchor_master_only (A L2 T : List Char) (rs : List (List Char × List Char))
    (hanc : containsSub ("remote:".data) (A ++ listSeg mastTok L2 T) = false)
    (hL2 : L2.all (fun ch => !(ch = ']')) = true)
    (h3 : ∀ p, p < A.length →
      tryMatchList mastTok ((A ++ listSeg mastTok L2 T).drop p) = none)
    (h4 : ∀ p, p < (']' :: T).length → tryMatchList mastTok ((']' :: T).drop p) = none) :
    generate_new_config (A ++ listSeg mastTok L2 T) rs =
      A ++ listSegReplaced (joinIds (rs.map Prod.fst)) T := by
  have hnone : firstAnchorIdx (splitLinesKeep (A ++ listSeg mastTok L2 T)) = none := by
    apply firstAnchorIdx_none
    intro x hx
    by_contra hcon
    rw [Bool.not_eq_false] at hcon
    have hall := containsSub_of_mem_joinAll hx hcon
    rw [joinAll_splitLinesKeep, hanc] at hall
    exact Bool.false_ne_true hall
  simp only [generate_new_config]
  rw [linesAfterInsert_none rs hnone, joinAll_splitLinesKeep]
  rw [append_to_list_noFire ("remote".data) _ _ (by decide)
    (fun p _ => tryMatch_none_of_not_containsSub (containsSub_drop p hanc))]
  have hsingle := append_to_list_single ("master".data) (joinIds (rs.map Prod.fst))
    A (listSeg mastTok L2 T) _ _ (by decide) h3 (tryMatch_fire mastTok L2 T hL2) h4
  rw [hsingle]
  simp [listSegReplaced, List.append_assoc]

/-! Section: The claims -/

/-- Claim C1 (code bug): reconciliation is NOT idempotent across runs.  The
parser can never recognize any remote id (its lazy section regex stops
before the first `id:`, and the id pattern `-    id:  ` does not even match
the `- id: ` lines the synthesizer writes), so a second run over the
document written by the first run recomputes the same nonempty missing set
and performs the external writes again.  At the concrete failing input
(desired map `a-remote -> site-a.dns.internal`, base document `remote:\n`),
the first run writes, and the second run — fed the document the first run
produced — writes the ConfigMap again and signals a restart again, where the
claim demands zero external writes. -/
theorem C1_reconciliation_not_idempotent :
    (runMain ⟨true, some [("a-remote".data, "site-a.dns.internal".data)],
        some ("remote:\n".data), true, true⟩).cmWritten ≠ none ∧
    (runMain ⟨true, some [("a-remote".data, "site-a.dns.internal".data)],
        (runMain ⟨true, some [("a-remote".data, "site-a.dns.internal".data)],
          some ("remote:\n".data), true, true⟩).cmWritten, true, true⟩).cmWritten ≠ none ∧
    (runMain ⟨true, some [("a-remote".data, "site-a.dns.internal".data)],
        (runMain ⟨true, some [("a-remote".data, "site-a.dns.internal".data)],
          some ("remote:\n".data), true, true⟩).cmWritten, true, true⟩).restartSignaled
      = true := by
  decide

/-- Claim C2, counterexample: on the document `remote: [a]\n` the
synthesizer with an empty missing map is not the identity — the matched
span `remote: [a` is deleted and replaced by U+0001 and `, `, leaving
`\x01, ]\n`. -/
theorem C2_identity_counterexample :
    generate_new_config ("remote: [a]\n".data) [] = ("\x01, ]\n".data) ∧
    generate_new_config ("remote: [a]\n".data) [] ≠ ("remote: [a]\n".data) := by
  decide

/-- Claim C2, witness for the amended theorem at a concrete document with no
bracketed lists. -/
theorem C2_empty_missing_identity_witness :
    (∀ p, p < ("server:\n".data : List Char).length →
      tryMatchList anchTok (("server:\n".data : List Char).drop p) = none) ∧
    (∀ p, p < ("server:\n".data : List Char).length →
      tryMatchList mastTok (("server:\n".data : List Char).drop p) = none) ∧
    generate_new_config ("server:\n".data) [] = ("server:\n".data) :=
  ⟨by decide, by decide, C2_empty_missing_identity _ (by decide) (by decide)⟩

/-- Claim C3, counterexample: the claim quantifies over every base document
containing a `remote:` anchor, but on the document `remote:\n` (anchor
present, no bracketed list directives) the two missing identifiers are
appended to no list at all — the output contains no `[` — while the claim
demands each identifier be appended exactly once to each of the two list
directives.  The blocks are still inserted (in reverse order). -/
theorem C3_counterexample_no_lists :
    generate_new_config ("remote:\n".data) [("x".data, "fx".data), ("y".data, "fy".data)] =
      "remote:\n".data ++ blockText ("y".data) ("fy".data) ++
        blockText ("x".data) ("fx".data) ∧
    (generate_new_config ("remote:\n".data)
      [("x".data, "fx".data), ("y".data, "fy".data)]).contains '[' = false := by
  decide

/-- Claim C3, corrected (amended): on well-formed base documents — a
`remote:` anchor header and exactly one bracketed list value for each of
the `remote` and `master` directives, formalized by the pattern-fire
hypotheses — the synthesizer output for missing remotes `{x, y}` contains
exactly one new block for `x` and one for `y` (the latter first, blocks are
spliced at a fixed index), but the identifiers are NOT appended to the list
directives: each matched directive — its name, opening bracket and all
prior entries (`L1`, `L2`) — is deleted and replaced by the control
character U+0001 followed by `, x, y` (the ids joined in forward order),
with only the closing bracket and the surrounding text preserved, as the
right-hand side exhibits. -/
theorem C3_insertion_completeness_wellformed (x fx y fy Pa B L1 M L2 T : List Char)
    (hPa : containsSub ("remote:".data) (Pa ++ ['\n']) = false)
    (hL1 : L1.all (fun ch => !(ch = ']')) = true)
    (hL2 : L2.all (fun ch => !(ch = ']')) = true)
    (h1 : ∀ p, p < (famPre1 [(x, fx), (y, fy)] Pa B).length →
      tryMatchList anchTok ((famS1 [(x, fx), (y, fy)] Pa B L1 M L2 T).drop p) = none)
    (h2 : ∀ p, p < (']' :: (M ++ listSeg mastTok L2 T)).length →
      tryMatchList anchTok ((']' :: (M ++ listSeg mastTok L2 T)).drop p) = none)
    (h3 : ∀ p, p < (famPre2 [(x, fx), (y, fy)] Pa B M).length →
      tryMatchList mastTok ((famS2 [(x, fx), (y, fy)] Pa B M L2 T).drop p) = none)
    (h4 : ∀ p, p < (']' :: T).length → tryMatchList mastTok ((']' :: T).drop p) = none) :
    generate_new_config (famDoc Pa B L1 M L2 T) [(x, fx), (y, fy)] =
      Pa ++ '\n' :: (anchTok ++ '\n' :: (blockText y fy ++ (blockText x fx ++ (B ++
        listSegReplaced (x ++ ',' :: ' ' :: y)
          (M ++ listSegReplaced (x ++ ',' :: ' ' :: y) T))))) := by
  rw [generate_family [(x, fx), (y, fy)] Pa B L1 M L2 T hPa hL1 hL2 h1 h2 h3 h4]
  simp [famOut, blocksTextOf, blocksOf, blockText, joinIds, joinAll, joinAll_append,
    List.append_assoc]

/-- Claim C3, witness: the amended theorem applied to a concrete well-formed
knot-style document with two concrete missing remotes. -/
theorem C3_insertion_completeness_witness :
    generate_new_config
        (famDoc ("server:".data) ("  - id: old\nacl:\n  - id: xfr-acl\n    ".data)
          ("old".data) ("\ntemplate:\n  - id: secondary\n    ".data) ("old".data)
          ("\n".data))
        [("x-remote".data, "site-x.dns.internal".data),
         ("y-remote".data, "site-y.dns.internal".data)] =
      "server:".data ++ '\n' :: (anchTok ++ '\n' ::
        (blockText ("y-remote".data) ("site-y.dns.internal".data) ++
          (blockText ("x-remote".data) ("site-x.dns.internal".data) ++
            ("  - id: old\nacl:\n  - id: xfr-acl\n    ".data ++
              listSegReplaced ("x-remote".data ++ ',' :: ' ' :: "y-remote".data)
                ("\ntemplate:\n  - id: secondary\n    ".data ++
                  listSegReplaced
                    ("x-remote".data ++ ',' :: ' ' :: "y-remote".data)
                    ("\n".data)))))) :=
  C3_insertion_completeness_wellformed ("x-remote".data) ("site-x.dns.internal".data)
    ("y-remote".data) ("site-y.dns.internal".data) ("server:".data)
    ("  - id: old\nacl:\n  - id: xfr-acl\n    ".data) ("old".data)
    ("\ntemplate:\n  - id: secondary\n    ".data) ("old".data) ("\n".data)
    (by decide) (by decide) (by decide) (by decide) (by decide) (by decide) (by decide)

/-- Claim C4 (code bug): the parser postcondition fails.  The lazy group of
`remote:(.*?)(\w+:|$)` always stops before the first `\w+:` occurrence, so
the captured section can never contain an `id:` marker, and the `findall`
never matches: `get_current_remotes_from_config` returns the empty set on
EVERY document.  In particular, on the failing input `remote:\n-    id:  abc\n`
the claim requires `{abc}` but the code yields the empty set. -/
theorem C4_parser_always_empty :
    (∀ content, get_current_remotes_from_config content = []) ∧
    get_current_remotes_from_config ("remote:\n-    id:  abc\n".data) = [] :=
  ⟨get_current_remotes_empty, get_current_remotes_empty _⟩

/-- Claim C5 (confirmed): the Catalog Reader derivation is a pure function
of the zone name's first dot-delimited label: id is the label plus
`-remote`, the address is `site-` plus the label plus `.dns.internal`; at
the spec's concrete member zone name it yields exactly the documented pair. -/
theorem C5_derivation_purity :
    (∀ z, derive_remote z =
      (firstLabel z ++ "-remote".data,
        "site-".data ++ firstLabel z ++ ".dns.internal".data)) ∧
    derive_remote ("catalog-primary.internal.dns.".data) =
      ("catalog-primary-remote".data, "site-catalog-primary.dns.internal".data) := by
  constructor
  · intro z
    simp only [derive_remote, firstLabel]
    rw [pySplit_headD]
  · decide

/-- Claim C6 (confirmed): whenever the catalog zone transfer fails, the run
terminates normally (`exit(0)` inside the reader; no exception escapes) with
zero external writes: no ConfigMap write and no restart signal. -/
theorem C6_graceful_degradation (inp : RunInput) (h : inp.transfer = none) :
    runMain inp = ⟨none, false, true⟩ := by
  obtain ⟨k, t, c, w, r⟩ := inp
  dsimp only at h
  subst h
  cases k <;> rfl

/-- Claim C6, witness. -/
theorem C6_graceful_degradation_witness :
    (RunInput.mk true none (some []) true true).transfer = none ∧
    runMain (RunInput.mk true none (some []) true true) = ⟨none, false, true⟩ :=
  ⟨rfl, C6_graceful_degradation _ rfl⟩

/-- Claim C7 (confirmed): when the missing remote set (desired ids minus
current ids) is empty, the driver performs no storage write, signals no
restart and terminates normally, leaving all external state unchanged. -/
theorem C7_noop_on_empty_diff (inp : RunInput) (desired : List (List Char × List Char))
    (content : List Char) (ht : inp.transfer = some desired)
    (hc : inp.configFile = some content)
    (hmiss : (desired.map Prod.fst).filter
      (fun k => !((get_current_remotes_from_config content).contains k)) = []) :
    runMain inp = ⟨none, false, true⟩ := by
  obtain ⟨k, t, c, w, r⟩ := inp
  dsimp only at ht hc
  subst ht
  subst hc
  cases k
  · rfl
  · simp only [runMain, Bool.not_true, Bool.false_eq_true, if_false]
    rw [hmiss]
    simp

/-- Claim C7, witness. -/
theorem C7_noop_on_empty_diff_witness :
    (RunInput.mk true (some []) (some ("remote:\n".data)) true true).transfer = some [] ∧
    (RunInput.mk true (some []) (some ("remote:\n".data)) true true).configFile =
      some ("remote:\n".data) ∧
    ((([] : List (List Char × List Char)).map Prod.fst).filter
      (fun k => !((get_current_remotes_from_config ("remote:\n".data)).contains k)) = []) ∧
    runMain (RunInput.mk true (some []) (some ("remote:\n".data)) true true) =
      ⟨none, false, true⟩ :=
  ⟨rfl, rfl, rfl, C7_noop_on_empty_diff _ [] ("remote:\n".data) rfl rfl rfl⟩

/-- Claim C8 (confirmed): each failure condition causes an early return with
no subsequent external side effects — transfer unavailable and missing base
document yield runs with no write and no restart; a ConfigMap write failure
yields no successful write (the stored document keeps its old content) and
no restart signal; a restart-signal failure yields no restart signal (and
nothing follows it).  Every such run terminates normally, so the next run
retries from unchanged state. -/
theorem C8_early_return_no_side_effects :
    (∀ inp : RunInput, inp.transfer = none → runMain inp = ⟨none, false, true⟩) ∧
    (∀ inp : RunInput, inp.configFile = none → runMain inp = ⟨none, false, true⟩) ∧
    (∀ inp : RunInput, inp.cmWriteOk = false →
      (runMain inp).cmWritten = none ∧ (runMain inp).restartSignaled = false) ∧
    (∀ inp : RunInput, inp.restartOk = false → (runMain inp).restartSignaled = false) := by
  refine ⟨?_, ?_, ?_, ?_⟩
  · intro inp h
    obtain ⟨k, t, c, w, r⟩ := inp
    dsimp only at h
    subst h
    cases k <;> rfl
  · intro inp h
    obtain ⟨k, t, c, w, r⟩ := inp
    dsimp only at h
    subst h
    cases k
    · rfl
    · cases t with
      | none => rfl
      | some d => rfl
  · intro inp h
    obtain ⟨k, t, c, w, r⟩ := inp
    dsimp only at h
    subst h
    cases k
    · exact ⟨rfl, rfl⟩
    · cases t with
      | none => exact ⟨rfl, rfl⟩
      | some d =>
        cases c with
        | none => exact ⟨rfl, rfl⟩
        | some content =>
          simp only [runMain, Bool.not_true, Bool.false_eq_true, if_false]
          split
          · exact ⟨rfl, rfl⟩
          · exact ⟨rfl, rfl⟩
  · intro inp h
    obtain ⟨k, t, c, w, r⟩ := inp
    dsimp only at h
    subst h
    cases k
    · rfl
    · cases t with
      | none => rfl
      | some d =>
        cases c with
        | none => rfl
        | some content =>
          simp only [runMain, Bool.not_true, Bool.false_eq_true, if_false]
          split
          · rfl
          · cases w <;> rfl

/-- Claim C8, witness: the four failure conditions at concrete inputs. -/
theorem C8_early_return_no_side_effects_witness :
    runMain ⟨true, none, some [], true, true⟩ = ⟨none, false, true⟩ ∧
    runMain ⟨true, some [("a".data, "f".data)], none, true, true⟩ = ⟨none, false, true⟩ ∧
    ((runMain ⟨true, some [("a".data, "f".data)], some [], false, true⟩).cmWritten = none ∧
      (runMain ⟨true, some [("a".data, "f".data)], some [], false,
        true⟩).restartSignaled = false) ∧
    (runMain ⟨true, some [("a".data, "f".data)], some [], true,
      false⟩).restartSignaled = false :=
  ⟨C8_early_return_no_side_effects.1 _ rfl,
   C8_early_return_no_side_effects.2.1 _ rfl,
   C8_early_return_no_side_effects.2.2.1 _ rfl,
   C8_early_return_no_side_effects.2.2.2 _ rfl⟩

/-- Claim C9, counterexample: the base document `master: [m]\n` contains no
`remote:` anchor line; with missing map `{x}` the synthesized document is
`\x01, x]\n` — the output contains no `remote` at all, so `x` was appended
to no `remote` list directive, and the `master` list was not extended
either: the matched span `master: [m` was deleted and replaced by U+0001
and `, x`, contradicting the claim's "extending the 'remote' and 'master'
list directives with the missing identifiers". -/
theorem C9_counterexample_remote_list :
    generate_new_config ("master: [m]\n".data) [("x".data, "fx".data)] =
      ("\x01, x]\n".data) ∧
    containsSub ("remote".data)
      (generate_new_config ("master: [m]\n".data) [("x".data, "fx".data)]) = false := by
  decide

/-- Claim C9, witness for the amended theorem at a concrete document. -/
theorem C9_missing_anchor_master_only_witness :
    generate_new_config
        ("template:\n  - id: secondary\n    ".data ++ listSeg mastTok ("old".data)
          ("\n".data)) [("x".data, "fx".data)] =
      "template:\n  - id: secondary\n    ".data ++
        listSegReplaced ("x".data) ("\n".data) := by
  have h := C9_missing_anchor_master_only ("template:\n  - id: secondary\n    ".data)
    ("old".data) ("\n".data) [("x".data, "fx".data)]
    (by decide) (by decide) (by decide) (by decide)
  simpa [joinIds] using h

/-- Claim C10, counterexample: on the anchored document
`remote:\nremote: [a]\n` with missing map `{x, y}`, the blocks are inserted
in reverse order right after the anchor line, but the identifiers are NOT
appended to the `remote: [a]` list directive: the matched span `remote: [a`
is deleted and replaced by U+0001 and `, x, y`, so the output contains no
`remote: [` directive at all, refuting the claim's "the same identifiers
are appended to the list directives in forward iteration order". -/
theorem C10_counterexample_lists_destroyed :
    generate_new_config ("remote:\nremote: [a]\n".data)
        [("x".data, "fx".data), ("y".data, "fy".data)] =
      "remote:\n".data ++ blockText ("y".data) ("fy".data) ++
        blockText ("x".data) ("fx".data) ++ "\x01, x, y]\n".data ∧
    containsSub ("remote: [".data)
      (generate_new_config ("remote:\nremote: [a]\n".data)
        [("x".data, "fx".data), ("y".data, "fy".data)]) = false := by
  decide

/-- Claim C10, corrected (amended): on well-formed base documents (anchor
present, one bracketed list per directive — the same family as C3, for any
missing map with at least two entries), every block is spliced at the same
index `i + 1` right after the first anchor line, so the inserted blocks
appear in the reverse of the map's iteration order (`blocksOf` prepends
later entries), while the identifiers appear joined in forward iteration
order (`joinIds (rs.map Prod.fst)`) inside the replacement of each list
directive; they are not appended to the directives — each matched directive
with its prior entries is deleted and replaced by U+0001 followed by `, `
and that forward-order join. -/
theorem C10_reverse_blocks_forward_lists (rs : List (List Char × List Char))
    (Pa B L1 M L2 T : List Char) (_hlen : 2 ≤ rs.length)
    (hPa : containsSub ("remote:".data) (Pa ++ ['\n']) = false)
    (hL1 : L1.all (fun ch => !(ch = ']')) = true)
    (hL2 : L2.all (fun ch => !(ch = ']')) = true)
    (h1 : ∀ p, p < (famPre1 rs Pa B).length →
      tryMatchList anchTok ((famS1 rs Pa B L1 M L2 T).drop p) = none)
    (h2 : ∀ p, p < (']' :: (M ++ listSeg mastTok L2 T)).length →
      tryMatchList anchTok ((']' :: (M ++ listSeg mastTok L2 T)).drop p) = none)
    (h3 : ∀ p, p < (famPre2 rs Pa B M).length →
      tryMatchList mastTok ((famS2 rs Pa B M L2 T).drop p) = none)
    (h4 : ∀ p, p < (']' :: T).length → tryMatchList mastTok ((']' :: T).drop p) = none) :
    generate_new_config (famDoc Pa B L1 M L2 T) rs =
      Pa ++ '\n' :: (anchTok ++ '\n' :: (joinAll (blocksOf rs) ++ B ++
        listSegReplaced (joinIds (rs.map Prod.fst))
          (M ++ listSegReplaced (joinIds (rs.map Prod.fst)) T))) := by
  rw [generate_family rs Pa B L1 M L2 T hPa hL1 hL2 h1 h2 h3 h4]
  rw [famOut, blocksTextOf]

/-- Claim C10, witness: three missing remotes on a concrete well-formed
document; the hypotheses are discharged by computation. -/
theorem C10_reverse_blocks_forward_lists_witness :
    2 ≤ ([(("a".data : List Char), ("f".data : List Char)), ("b".data, "g".data),
      ("c".data, "h".data)]).length ∧
    generate_new_config
        (famDoc ("s:".data) ("  ".data) ("o".data) ("\n  ".data) ("p".data) ("\n".data))
        [("a".data, "f".data), ("b".data, "g".data), ("c".data, "h".data)] =
      "s:".data ++ '\n' :: (anchTok ++ '\n' ::
        (joinAll (blocksOf [("a".data, "f".data), ("b".data, "g".data),
            ("c".data, "h".data)]) ++ "  ".data ++
          listSegReplaced
            (joinIds ([(("a".data : List Char), ("f".data : List Char)),
              ("b".data, "g".data), ("c".data, "h".data)].map Prod.fst))
            ("\n  ".data ++ listSegReplaced
              (joinIds ([(("a".data : List Char), ("f".data : List Char)),
                ("b".data, "g".data), ("c".data, "h".data)].map Prod.fst))
              ("\n".data)))) :=
  ⟨by decide,
   C10_reverse_blocks_forward_lists _ ("s:".data) ("  ".data) ("o".data) ("\n  ".data)
     ("p".data) ("\n".data) (by decide) (by decide) (by decide) (by decide) (by decide)
     (by decide) (by decide) (by decide)⟩

end Reconcile
